import Mathlib

/-!
Verification development for the octopus CI/CD orchestrator.

The definitions below are a shallow embedding of the repository sources:

* a small backtracking pattern engine mirroring the semantics of the calls
  to Python re.search used by the code (leftmost starting position wins;
  at a given position alternatives are explored in greedy backtracking
  order; the value used by the code is always group 1);
* src/octopus/builder/builder_flutter_android.py
  (BuilderFutterAndroid.extract_file_path and BuilderFutterAndroid.build);
* src/octopus/helper/flutter_main_finder.py (FlutterMainFinder);
* src/octopus/helper/flutter_melos_checker.py (FlutterMelosChecker);
* src/octopus/git/git_manager.py together with
  src/octopus/git/git_checkout_manager.py (the two files implement the
  same checkout control flow; the embedding follows git_manager.py and
  reuses the helper decomposition of git_checkout_manager.py where the
  two agree).

External effects (filesystem, subprocesses) are modelled by explicit
environment records whose boolean fields give the outcome of each
external command, and by traces of the external commands issued.
-/

namespace Octopus

/-! ## Pattern engine

The only regex constructs appearing in the Python sources are literal
characters, character classes repeated with + or *, concatenation and a
single alternation of literals, with one capturing group.  The engine
below implements exactly these, with the backtracking order of CPython:
quantifiers are greedy (longest first) and alternation tries the left
branch first.
-/

/-- Regular expressions as used by the source patterns.  starCls and
plusCls are greedy repetitions of a single character class. -/
inductive RE where
  | eps
  | lit (c : Char)
  | cat (a b : RE)
  | alt (a b : RE)
  | starCls (p : Char → Bool)
  | plusCls (p : Char → Bool)

/-- Backtracking helper for greedy class repetition: run is the maximal
run of class characters; candidates are tried from consuming all of run
down to consuming none of it. -/
def giveBack {α : Type} (run rest : List Char) (k : List Char → Option α) : Option α :=
  match run with
  | [] => k rest
  | c :: cs =>
    match giveBack cs rest k with
    | some v => some v
    | none => k (c :: cs ++ rest)

/-- Match re at the start of s, in CPython backtracking order, passing the
unconsumed remainder to the continuation k. -/
def matchAt {α : Type} : RE → List Char → (List Char → Option α) → Option α
  | .eps, s, k => k s
  | .lit c, s, k =>
    match s with
    | [] => none
    | a :: t => if a = c then k t else none
  | .cat a b, s, k => matchAt a s (fun r => matchAt b r k)
  | .alt a b, s, k =>
    match matchAt a s k with
    | some v => some v
    | none => matchAt b s k
  | .starCls p, s, k => giveBack (s.takeWhile p) (s.dropWhile p) k
  | .plusCls p, s, k =>
    match s with
    | [] => none
    | a :: t => if p a then giveBack (t.takeWhile p) (t.dropWhile p) k else none

/-- Try the pattern pre followed by the capturing group grp at the start
of s, returning the text captured by the group. -/
def matchHere (pre grp : RE) (s : List Char) : Option (List Char) :=
  matchAt pre s (fun r => matchAt grp r (fun r2 => some (r.take (r.length - r2.length))))

/-- re.search for a pattern of shape pre(grp): try every starting
position from left to right and return group 1 of the first match. -/
def searchAll (pre grp : RE) : List Char → Option (List Char)
  | [] => matchHere pre grp []
  | c :: t =>
    match matchHere pre grp (c :: t) with
    | some v => some v
    | none => searchAll pre grp t

/-- Convenience: the characters of a string literal. -/
def strL (s : String) : List Char := s.toList

/-- A sequence of literal characters. -/
def litStr (s : List Char) : RE := s.foldr (fun c r => RE.cat (.lit c) r) .eps

/-- Python ASCII whitespace class, as matched by the shorthand class in
the source patterns. -/
def isSpaceCh (c : Char) : Bool :=
  c = ' ' || c = '\t' || c = '\n' || c = '\x0d' || c = '\x0b' || c = '\x0c'

def notSpaceCh (c : Char) : Bool := !(isSpaceCh c)

/-! ## Android artifact extractor
Shallow embedding of BuilderFutterAndroid.extract_file_path
(src/octopus/builder/builder_flutter_android.py, lines 78-124).
Each Python pattern is transcribed as a (pre, grp) pair so that
searchAll pre grp is re.search(pattern, s).group(1).
-/

/-- The marker part of the first two patterns. -/
def builtPre : RE := .cat (litStr (strL "Built")) (.plusCls isSpaceCh)

/-- Group of the first pattern: nonspace run ending in the bundle extension. -/
def aabGrp : RE := .cat (.plusCls notSpaceCh) (litStr (strL ".aab"))

/-- Group of the second pattern: nonspace run ending in the package extension. -/
def apkGrp : RE := .cat (.plusCls notSpaceCh) (litStr (strL ".apk"))

/-- Common tail of patterns 3-5: a dot then one of the two extensions. -/
def extAlt : RE := .cat (.lit '.') (.alt (litStr (strL "aab")) (litStr (strL "apk")))

/-- Group of the third pattern. -/
def buildPathGrp : RE := .cat (litStr (strL "build/")) (.cat (.starCls notSpaceCh) extAlt)

/-- Group of the fourth pattern. -/
def appReleaseGrp : RE := .cat (.starCls notSpaceCh) (.cat (litStr (strL "app-release")) extAlt)

/-- Group of the fifth pattern. -/
def generalGrp : RE := .cat (.plusCls notSpaceCh) extAlt

def searchBuiltAab (s : List Char) : Option (List Char) := searchAll builtPre aabGrp s
def searchBuiltApk (s : List Char) : Option (List Char) := searchAll builtPre apkGrp s
def searchBuildPath (s : List Char) : Option (List Char) := searchAll .eps buildPathGrp s
def searchAppRelease (s : List Char) : Option (List Char) := searchAll .eps appReleaseGrp s
def searchGeneral (s : List Char) : Option (List Char) := searchAll .eps generalGrp s

/-- BuilderFutterAndroid.extract_file_path: the five rules are tried in
declared order, the first successful search wins. -/
def extract_file_path (out : List Char) : Option (List Char) :=
  match searchBuiltAab out with
  | some p => some p
  | none =>
    match searchBuiltApk out with
    | some p => some p
    | none =>
      match searchBuildPath out with
      | some p => some p
      | none =>
        match searchAppRelease out with
        | some p => some p
        | none => searchGeneral out

/-- Outcome of BuilderFutterAndroid.build: the two raised exceptions and
the returned artifact path. -/
inductive BuildOutcome where
  | pathMissing
  | extractFailed
  | built (artifact : List Char)
deriving DecidableEq

/-- Result of BuilderFutterAndroid.build together with the process
working directory when the method terminates (normally or by raising). -/
structure AndroidBuildResult where
  outcome : BuildOutcome
  finalCwd : List Char
deriving DecidableEq

/-- BuilderFutterAndroid.build (lines 18-47): save the working directory,
fail if the build path is missing, change directory to the build path,
run the build (its combined stdout+stderr is the parameter buildOutput),
extract the artifact path, raising before the restoring chdir when the
extraction fails; restore the directory and return the joined path on
success. -/
def androidBuild (originalPath buildPath : List Char) (buildPathExists : Bool)
    (buildOutput : List Char) : AndroidBuildResult :=
  if buildPathExists = false then ⟨.pathMissing, originalPath⟩
  else
    match extract_file_path buildOutput with
    | none => ⟨.extractFailed, buildPath⟩
    | some p =>
      ⟨.built (originalPath ++ strL "/" ++ buildPath ++ strL "/" ++ p), originalPath⟩

/-! ## Entry point finder
Shallow embedding of FlutterMainFinder
(src/octopus/helper/flutter_main_finder.py).  The directory traversal is
abstracted as the list of (file name, file content) pairs in traversal
order; the pattern tests on file contents are the exact source regexes.
-/

/-- Pattern for a plain entry function declaration. -/
def voidMainRe : RE :=
  .cat (litStr (strL "void"))
    (.cat (.plusCls isSpaceCh)
      (.cat (litStr (strL "main")) (.cat (.starCls isSpaceCh) (.lit '('))))

/-- Pattern for a Future returning entry function declaration. -/
def futureMainRe : RE :=
  .cat (litStr (strL "Future<void>"))
    (.cat (.plusCls isSpaceCh)
      (.cat (litStr (strL "main")) (.cat (.starCls isSpaceCh) (.lit '('))))

/-- Pattern for any call or declaration of main. -/
def bareMainRe : RE := .cat (litStr (strL "main")) (.cat (.starCls isSpaceCh) (.lit '('))

/-- Pattern for the launch call. -/
def runAppRe : RE := .cat (litStr (strL "runApp")) (.cat (.starCls isSpaceCh) (.lit '('))

/-- Pattern for the qualified launch call. -/
def qualifiedRunAppRe : RE :=
  .cat (litStr (strL "flutter.runApp")) (.cat (.starCls isSpaceCh) (.lit '('))

/-- FlutterMainFinder.main_patterns, in declared order. -/
def mainPatterns : List RE := [voidMainRe, futureMainRe, bareMainRe]

/-- FlutterMainFinder.runapp_patterns, in declared order. -/
def runAppPatterns : List RE := [runAppRe, qualifiedRunAppRe]

/-- Truthiness of re.search(pattern, content). -/
def hasMatch (re : RE) (content : List Char) : Bool := (searchAll .eps re content).isSome

/-- The candidate record built by FlutterMainFinder.search_main_in_file:
the file name, the index of the first entry pattern that matched, and
whether any launch-call pattern matched. -/
structure MainInfo where
  file : List Char
  mainPatternIdx : Nat
  hasRunApp : Bool
deriving DecidableEq

/-- The pattern loop of search_main_in_file: the index of the first
pattern in the list that matches the content, mirroring the for loop
with break of the source. -/
def firstMatchIdx (pats : List RE) (content : List Char) : Option Nat :=
  match pats with
  | [] => none
  | p :: ps =>
    if hasMatch p content then some 0
    else (firstMatchIdx ps content).map (fun i => i + 1)

/-- FlutterMainFinder.search_main_in_file (lines 118-172): a file is a
candidate exactly when some entry pattern matches; the launch-call test
is recorded but does not decide candidacy. -/
def search_main_in_file (file content : List Char) : Option MainInfo :=
  match firstMatchIdx mainPatterns content with
  | none => none
  | some i => some ⟨file, i, runAppPatterns.any (fun re => hasMatch re content)⟩

/-- FlutterMainFinder.find_main_functions (lines 174-217): collect the
candidate record of every traversed file that has one. -/
def find_main_functions (files : List (List Char × List Char)) : List MainInfo :=
  files.filterMap (fun fc => search_main_in_file fc.1 fc.2)

/-- FlutterMainFinder.get_flutter_entry_points (lines 219-226). -/
def get_flutter_entry_points (mainFiles : List MainInfo) : List MainInfo :=
  mainFiles.filter (fun i => i.hasRunApp)

/-- The single best pick made by the caller in main.py (lines 343-348):
the first element of the entry point list, when any. -/
def bestEntryPoint (files : List (List Char × List Char)) : Option MainInfo :=
  (get_flutter_entry_points (find_main_functions files)).head?

/-! ## Bootstrap retry wrapper
Shallow embedding of FlutterMelosChecker
(src/octopus/helper/flutter_melos_checker.py).
-/

/-- Outcome of one invocation of the bootstrap subprocess: zero exit,
nonzero exit, per-attempt timeout, or an unexpected exception. -/
inductive AttemptOutcome where
  | ok
  | nonzeroExit
  | timedOut
  | raisedExc
deriving DecidableEq

/-- Environment of run_melos_bootstrap: which melos config files exist,
whether the melos binary is installed (a missing binary raises
FileNotFoundError from the version probe), and the outcome of the i-th
bootstrap invocation. -/
structure MelosEnv where
  melosYamlExists : Bool
  melosYmlExists : Bool
  melosInstalled : Bool
  outcome : Nat → AttemptOutcome

/-- FlutterMelosChecker.has_melos_config (lines 21-31). -/
def has_melos_config (e : MelosEnv) : Bool := e.melosYamlExists || e.melosYmlExists

/-- Abstraction of the diagnostic text reported by run_melos_bootstrap:
what the final message notes.  On the last failed attempt the code
prints, via _should_retry_and_wait, the attempt error followed by a line
noting failure after max_retries attempts; on a late success the
returned message notes success after attempt+1 attempts. -/
inductive MelosMsg where
  | noConfig
  | melosNotFound
  | successFirst
  | successAfter (attempts : Nat)
  | exhausted (attempts : Nat)
deriving DecidableEq

/-- The retry loop of run_melos_bootstrap (lines 86-133): attempt is the
0-based loop counter, remaining the number of loop iterations left
(initially max_retries).  The Nat in the result counts how many times
the bootstrap subprocess was invoked.  A timeout or unexpected exception
goes through _should_retry_and_wait exactly like a nonzero exit. -/
def runLoop (outcome : Nat → AttemptOutcome) (maxRetries : Nat) : Nat → Nat → Bool × Nat × MelosMsg
  | attempt, 0 => (false, attempt, .exhausted maxRetries)
  | attempt, remaining + 1 =>
    match outcome attempt with
    | .ok =>
      (true, attempt + 1, if attempt = 0 then .successFirst else .successAfter (attempt + 1))
    | _ =>
      if attempt < maxRetries - 1 then runLoop outcome maxRetries (attempt + 1) remaining
      else (false, attempt + 1, .exhausted maxRetries)

/-- FlutterMelosChecker.run_melos_bootstrap (lines 56-133): missing
config and missing binary return before the loop, with zero bootstrap
invocations. -/
def run_melos_bootstrap (e : MelosEnv) (maxRetries : Nat) : Bool × Nat × MelosMsg :=
  if has_melos_config e = false then (false, 0, .noConfig)
  else if e.melosInstalled = false then (false, 0, .melosNotFound)
  else runLoop e.outcome maxRetries 0 maxRetries

/-! ## Repository reconciliation
Shallow embedding of GitManager (src/octopus/git/git_manager.py) and the
equivalent GitCheckoutManager (src/octopus/git/git_checkout_manager.py).
The filesystem state of the local path is a RepoState; the outcome of
each external command is fixed by a GitWorld; every run also returns the
trace of external commands actually issued.
-/

inductive TargetType where
  | branch
  | commit
  | tag
deriving DecidableEq

inductive Strategy where
  | fresh
  | preserve
deriving DecidableEq

/-- Local working copy state: whether the path exists, whether it holds
a .git metadata directory, the branch name reported by the
show-current command (none when detached), and the reference the
working copy is checked out to (abstraction of HEAD). -/
structure RepoState where
  pathExists : Bool
  hasGitDir : Bool
  headBranch : Option (List Char)
  checkedOutRef : Option (List Char)
deriving DecidableEq

/-- Outcomes of the external commands for one reconciliation run. -/
structure GitWorld where
  removeOk : Bool
  cloneOk : Bool
  fetchOk : Bool
  resetOk : Bool
  cleanOk : Bool
  checkoutOk : List Char → Bool
  pullOk : Bool
  showCurrentOk : Bool
  defaultBranch : List Char

/-- External commands issued by the reconciler. -/
inductive GitOp where
  | rmtreeOp
  | cloneOp
  | fetchOp
  | resetOp
  | cleanOp
  | showCurrentOp
  | checkoutOp (ref : List Char)
  | pullOp
deriving DecidableEq

/-- (success, resulting state, trace of external commands). -/
abbrev GitResult := Bool × RepoState × List GitOp

/-- GitManager._is_git_repo (lines 51-59): the .git directory can only
exist when the local path itself does. -/
def isGitRepo (s : RepoState) : Bool := s.pathExists && s.hasGitDir

/-- GitManager.remove_directory (lines 61-78): rmtree only when the path
exists; an absent path is already a success and issues no command. -/
def removeDirectory (w : GitWorld) (s : RepoState) : GitResult :=
  if s.pathExists then
    if w.removeOk then (true, ⟨false, false, none, none⟩, [.rmtreeOp])
    else (false, s, [.rmtreeOp])
  else (true, s, [])

/-- GitManager.clone_repository (lines 80-95): a successful clone yields
a fresh working copy on the default branch of the remote. -/
def cloneRepository (w : GitWorld) (s : RepoState) : GitResult :=
  if w.cloneOk then
    (true, ⟨true, true, some w.defaultBranch, some w.defaultBranch⟩, [.cloneOp])
  else (false, s, [.cloneOp])

/-- GitManager.pull_repository (lines 97-116): guarded by _is_git_repo. -/
def pullRepository (w : GitWorld) (s : RepoState) : GitResult :=
  if isGitRepo s then (w.pullOk, s, [.pullOp]) else (false, s, [])

/-- GitManager.reset_hard (lines 494-516): guarded by _is_git_repo. -/
def resetHard (w : GitWorld) (s : RepoState) : GitResult :=
  if isGitRepo s then (w.resetOk, s, [.resetOp]) else (false, s, [])

/-- GitManager.clean_untracked (lines 518-548): guarded by _is_git_repo. -/
def cleanUntracked (w : GitWorld) (s : RepoState) : GitResult :=
  if isGitRepo s then (w.cleanOk, s, [.cleanOp]) else (false, s, [])

/-- The raw fetch command issued in step 3 of the preserve strategy. -/
def gitFetch (w : GitWorld) (s : RepoState) : GitResult := (w.fetchOk, s, [.fetchOp])

/-- Resolution of a checkout target to the reference passed to the
checkout command (tags get the tags/ namespace, lines 298-301). -/
def checkoutRef (tt : TargetType) (target : List Char) : List Char :=
  match tt with
  | .tag => strL "tags/" ++ target
  | _ => target

/-- The checkout command (lines 294-311): on success the working copy is
on the requested reference; commits and tags leave a detached HEAD so
the show-current command reports no branch afterwards. -/
def runCheckout (w : GitWorld) (tt : TargetType) (target : List Char) (s : RepoState) : GitResult :=
  let ref := checkoutRef tt target
  if w.checkoutOk ref then
    (true,
      { s with
        headBranch := (match tt with | .branch => some target | _ => none),
        checkedOutRef := some ref },
      [.checkoutOp ref])
  else (false, s, [.checkoutOp ref])

/-- Sequencing with the early-return style of the source: a failing step
aborts with the trace produced so far. -/
def andThen (r : GitResult) (f : RepoState → GitResult) : GitResult :=
  match r with
  | (true, s, t) =>
    match f s with
    | (ok, s2, t2) => (ok, s2, t ++ t2)
  | (false, s, t) => (false, s, t)

/-- Steps 1-3 of the preserve strategy (lines 247-281, also
GitCheckoutManager._prepare_repository_for_preserve_strategy): clone
when the path is missing, remove-and-clone when it is not a repository,
otherwise reset, clean and (for branch targets) fetch. -/
def prepareForPreserve (w : GitWorld) (tt : TargetType) (s : RepoState) : GitResult :=
  if s.pathExists = false then cloneRepository w s
  else if isGitRepo s = false then
    andThen (removeDirectory w s) (fun s1 => cloneRepository w s1)
  else
    andThen (resetHard w s) (fun s1 =>
      andThen (cleanUntracked w s1) (fun s2 =>
        match tt with
        | .branch => gitFetch w s2
        | _ => (true, s2, [])))

/-- Step 4 checkout decision (lines 283-292): only branch targets compare
the reported current branch against the target; any show-current failure
counts as not being on the target. -/
def needsCheckout (w : GitWorld) (tt : TargetType) (target : List Char) (s : RepoState) : Bool :=
  match tt with
  | .branch => !(w.showCurrentOk && decide (s.headBranch = some target))
  | _ => true

/-- Step 5 for branch targets (lines 315-326, identical to
GitCheckoutManager._handle_branch_update lines 103-115): the pull runs
only when no checkout was needed, and its failure does not flip the
overall outcome. -/
def handleBranchUpdate (w : GitWorld) (needs : Bool) (s : RepoState) : GitResult :=
  if needs = false then
    match pullRepository w s with
    | (_, s1, t) => (true, s1, t)
  else (true, s, [])

/-- The preserve branch of GitManager._checkout_with_strategy
(lines 241-326). -/
def preserveCheckout (w : GitWorld) (target : List Char) (tt : TargetType) (s : RepoState) :
    GitResult :=
  andThen (prepareForPreserve w tt s) (fun s1 =>
    let showOps : List GitOp := match tt with | .branch => [.showCurrentOp] | _ => []
    let needs := needsCheckout w tt target s1
    let ck : GitResult := if needs then runCheckout w tt target s1 else (true, s1, [])
    match ck with
    | (false, s2, t2) => (false, s2, showOps ++ t2)
    | (true, s2, t2) =>
      match tt with
      | .branch =>
        match handleBranchUpdate w needs s2 with
        | (ok3, s3, t3) => (ok3, s3, showOps ++ t2 ++ t3)
      | _ => (true, s2, showOps ++ t2))

/-- The fresh branch of GitManager._checkout_with_strategy
(lines 328-359): remove, clone, checkout, each aborting on failure. -/
def freshCheckout (w : GitWorld) (target : List Char) (tt : TargetType) (s : RepoState) :
    GitResult :=
  andThen (removeDirectory w s) (fun s1 =>
    andThen (cloneRepository w s1) (fun s2 =>
      runCheckout w tt target s2))

/-- GitManager._checkout_with_strategy (lines 215-359). -/
def checkoutWithStrategy (w : GitWorld) (target : List Char) (tt : TargetType)
    (strategy : Strategy) (s : RepoState) : GitResult :=
  match strategy with
  | .preserve => preserveCheckout w target tt s
  | .fresh => freshCheckout w target tt s

/-- GitManager.checkout_branch (lines 361-374). -/
def checkout_branch (w : GitWorld) (b : List Char) (strategy : Strategy) (s : RepoState) :
    GitResult :=
  checkoutWithStrategy w b .branch strategy s

/-- GitManager.checkout_commit (lines 376-393): combined with preserve,
a path that is not a repository fails fast before any command runs. -/
def checkout_commit (w : GitWorld) (h : List Char) (strategy : Strategy) (s : RepoState) :
    GitResult :=
  if isGitRepo s = false ∧ strategy = .preserve then (false, s, [])
  else checkoutWithStrategy w h .commit strategy s

/-- GitManager.checkout_tag (lines 395-412): same fail-fast guard. -/
def checkout_tag (w : GitWorld) (t : List Char) (strategy : Strategy) (s : RepoState) :
    GitResult :=
  if isGitRepo s = false ∧ strategy = .preserve then (false, s, [])
  else checkoutWithStrategy w t .tag strategy s

/-! ## Concrete scenario data used by witnesses and counterexamples -/

/-- Build output holding a bare artifact token before a marker-style
artifact path. -/
def demoOut : List Char := strL "Found /tmp/other.aab then Built build/out/app.aab fine"

/-- A world in which every external command succeeds. -/
def wAll : GitWorld :=
  ⟨true, true, true, true, true, fun _ => true, true, true, strL "main"⟩

/-- A world in which every external command succeeds except pull. -/
def wNoPull : GitWorld :=
  ⟨true, true, true, true, true, fun _ => true, false, true, strL "main"⟩

/-- A clean repository currently on branch main. -/
def sOnMain : RepoState := ⟨true, true, some (strL "main"), some (strL "main")⟩

/-- No local path at all. -/
def sAbsent : RepoState := ⟨false, false, none, none⟩

/-- An existing directory without version-control metadata. -/
def sNotRepo : RepoState := ⟨true, false, none, none⟩

/-- Two traversed source files: the first has an entry function but no
launch call, the second has both. -/
def demoFiles : List (List Char × List Char) :=
  [(strL "pkg/lib/tool.dart", strL "void main()"),
   (strL "pkg/lib/main.dart", strL "void main() runApp(MyApp)")]

/-! ## Declarative semantics of the pattern engine

Matches re w states that the pattern re can consume exactly the word w.
It is used to prove that a successful search implies the presence of an
artifact extension in the scanned text (claim C5).
-/

inductive Matches : RE → List Char → Prop where
  | eps : Matches .eps []
  | lit (c : Char) : Matches (.lit c) [c]
  | cat {a b : RE} {w1 w2 : List Char} :
      Matches a w1 → Matches b w2 → Matches (.cat a b) (w1 ++ w2)
  | altL {a b : RE} {w : List Char} : Matches a w → Matches (.alt a b) w
  | altR {a b : RE} {w : List Char} : Matches b w → Matches (.alt a b) w
  | starCls {p : Char → Bool} {w : List Char} :
      (∀ c ∈ w, p c = true) → Matches (.starCls p) w
  | plusCls {p : Char → Bool} {c : Char} {w : List Char} :
      p c = true → (∀ x ∈ w, p x = true) → Matches (.plusCls p) (c :: w)

/-- Substring test used to state claim C5: startsWith n h decides
whether n is a prefix of h. -/
def startsWith : List Char → List Char → Bool
  | [], _ => true
  | _ :: _, [] => false
  | a :: as, b :: bs => a = b && startsWith as bs

/-- hasSub n h decides whether n occurs contiguously inside h. -/
def hasSub (n : List Char) : List Char → Bool
  | [] => startsWith n []
  | c :: t => startsWith n (c :: t) || hasSub n t

theorem startsWith_self_append (n r : List Char) : startsWith n (n ++ r) = true := by
  induction n with
  | nil => rfl
  | cons a as ih => simp [startsWith, ih]

theorem hasSub_self_append (n r : List Char) : hasSub n (n ++ r) = true := by
  cases hn : (n ++ r) with
  | nil =>
    cases n with
    | nil => rfl
    | cons a as => simp at hn
  | cons c t =>
    rw [hasSub, ← hn, startsWith_self_append]
    rfl

theorem hasSub_of_decomp (n : List Char) :
    ∀ (l r h : List Char), h = l ++ n ++ r → hasSub n h = true := by
  intro l
  induction l with
  | nil =>
    intro r h hh
    subst hh
    rw [List.nil_append]
    exact hasSub_self_append n r
  | cons c cs ih =>
    intro r h hh
    subst hh
    have hstep : (c :: cs) ++ n ++ r = c :: (cs ++ n ++ r) := by simp
    rw [hstep, hasSub, ih r (cs ++ n ++ r) rfl, Bool.or_true]

theorem giveBack_sound {α : Type} :
    ∀ (run rest : List Char) (k : List Char → Option α) (v : α),
      giveBack run rest k = some v →
      ∃ pre suf, run = pre ++ suf ∧ k (suf ++ rest) = some v := by
  intro run
  induction run with
  | nil =>
    intro rest k v h
    exact ⟨[], [], rfl, h⟩
  | cons c cs ih =>
    intro rest k v h
    rw [giveBack] at h
    cases hg : giveBack cs rest k with
    | some v2 =>
      rw [hg] at h
      cases h
      obtain ⟨pre, suf, hsplit, hk⟩ := ih rest k v hg
      exact ⟨c :: pre, suf, by rw [hsplit]; rfl, hk⟩
    | none =>
      rw [hg] at h
      exact ⟨[], c :: cs, rfl, h⟩

theorem mem_takeWhile_sat (p : Char → Bool) :
    ∀ (s : List Char) (c : Char), c ∈ s.takeWhile p → p c = true := by
  intro s
  induction s with
  | nil => intro c h; simp [List.takeWhile] at h
  | cons a t ih =>
    intro c h
    rw [List.takeWhile] at h
    cases hp : p a with
    | false => rw [hp] at h; simp at h
    | true =>
      rw [hp] at h
      rcases List.mem_cons.mp h with h1 | h2
      · rw [h1]; exact hp
      · exact ih c h2

theorem matchAt_sound {α : Type} :
    ∀ (re : RE) (s : List Char) (k : List Char → Option α) (v : α),
      matchAt re s k = some v →
      ∃ w r, s = w ++ r ∧ Matches re w ∧ k r = some v := by
  intro re
  induction re with
  | eps =>
    intro s k v h
    exact ⟨[], s, rfl, .eps, h⟩
  | lit c =>
    intro s k v h
    cases s with
    | nil => simp [matchAt] at h
    | cons a t =>
      rw [matchAt] at h
      by_cases hac : a = c
      · rw [if_pos hac] at h
        subst hac
        exact ⟨[a], t, rfl, .lit a, h⟩
      · rw [if_neg hac] at h
        cases h
  | cat a b iha ihb =>
    intro s k v h
    rw [matchAt] at h
    obtain ⟨w1, r1, hs, hm1, hk1⟩ := iha s _ v h
    obtain ⟨w2, r2, hr1, hm2, hk2⟩ := ihb r1 k v hk1
    refine ⟨w1 ++ w2, r2, ?_, .cat hm1 hm2, hk2⟩
    rw [hs, hr1, List.append_assoc]
  | alt a b iha ihb =>
    intro s k v h
    rw [matchAt] at h
    cases ha : matchAt a s k with
    | some v2 =>
      rw [ha] at h
      cases h
      obtain ⟨w, r, hs, hm, hk⟩ := iha s k v ha
      exact ⟨w, r, hs, .altL hm, hk⟩
    | none =>
      rw [ha] at h
      obtain ⟨w, r, hs, hm, hk⟩ := ihb s k v h
      exact ⟨w, r, hs, .altR hm, hk⟩
  | starCls p =>
    intro s k v h
    rw [matchAt] at h
    obtain ⟨pre, suf, hsplit, hk⟩ := giveBack_sound _ _ k v h
    refine ⟨pre, suf ++ s.dropWhile p, ?_, .starCls ?_, hk⟩
    · conv_lhs => rw [← List.takeWhile_append_dropWhile (p := p) (l := s)]
      rw [hsplit, List.append_assoc]
    · intro c hc
      exact mem_takeWhile_sat p s c (by rw [hsplit]; exact List.mem_append_left _ hc)
  | plusCls p =>
    intro s k v h
    cases s with
    | nil => simp [matchAt] at h
    | cons a t =>
      rw [matchAt] at h
      by_cases hp : p a = true
      · rw [if_pos hp] at h
        obtain ⟨pre, suf, hsplit, hk⟩ := giveBack_sound _ _ k v h
        refine ⟨a :: pre, suf ++ t.dropWhile p, ?_, .plusCls hp ?_, hk⟩
        · have : t = pre ++ suf ++ t.dropWhile p := by
            conv_lhs => rw [← List.takeWhile_append_dropWhile (p := p) (l := t)]
            rw [hsplit, List.append_assoc]
          rw [List.cons_append]
          rw [← List.append_assoc, ← this]
        · intro c hc
          exact mem_takeWhile_sat p t c (by rw [hsplit]; exact List.mem_append_left _ hc)
      · rw [if_neg hp] at h
        cases h

theorem take_len_append (a b : List Char) : (a ++ b).take a.length = a := by
  induction a with
  | nil => rfl
  | cons c cs ih => simp [List.take, ih]

theorem matchHere_decomp (pre grp : RE) (s c : List Char) :
    matchHere pre grp s = some c →
    Matches grp c ∧ ∃ l r, s = l ++ c ++ r := by
  intro h
  rw [matchHere] at h
  obtain ⟨w1, r1, hs, _, hk1⟩ := matchAt_sound pre s _ c h
  obtain ⟨w2, r2, hr1, hm2, hk2⟩ := matchAt_sound grp r1 _ c hk1
  have hc : c = w2 := by
    cases hk2
    rw [hr1, List.length_append, Nat.add_sub_cancel, take_len_append]
  subst hc
  exact ⟨hm2, w1, r2, by rw [hs, hr1, List.append_assoc]⟩

theorem searchAll_decomp (pre grp : RE) :
    ∀ (s c : List Char), searchAll pre grp s = some c →
      Matches grp c ∧ ∃ l r, s = l ++ c ++ r := by
  intro s
  induction s with
  | nil =>
    intro c h
    exact matchHere_decomp pre grp [] c h
  | cons a t ih =>
    intro c h
    rw [searchAll] at h
    cases hm : matchHere pre grp (a :: t) with
    | some v =>
      rw [hm] at h
      cases h
      exact matchHere_decomp pre grp (a :: t) c hm
    | none =>
      rw [hm] at h
      obtain ⟨hmt, l, r, hd⟩ := ih c h
      exact ⟨hmt, a :: l, r, by rw [hd]; rfl⟩

theorem matches_litStr : ∀ (l w : List Char), Matches (litStr l) w → w = l := by
  intro l
  induction l with
  | nil =>
    intro w h
    cases h
    rfl
  | cons c cs ih =>
    intro w h
    cases h with
    | cat h1 h2 =>
      cases h1
      rw [ih _ h2]
      rfl

theorem matches_cat_decomp {a b : RE} {w : List Char} (h : Matches (.cat a b) w) :
    ∃ w1 w2, w = w1 ++ w2 ∧ Matches a w1 ∧ Matches b w2 := by
  cases h with
  | cat h1 h2 => exact ⟨_, _, rfl, h1, h2⟩

theorem matches_extAlt (w : List Char) :
    Matches extAlt w → w = strL ".aab" ∨ w = strL ".apk" := by
  intro h
  cases h with
  | cat h1 h2 =>
    cases h1
    cases h2 with
    | altL h3 => left; rw [matches_litStr _ _ h3]; rfl
    | altR h3 => right; rw [matches_litStr _ _ h3]; rfl

/-- Every successful match of one of the five artifact groups ends in
one of the two artifact extensions. -/
theorem matches_grp_ext (grp : RE)
    (hg : grp = aabGrp ∨ grp = apkGrp ∨ grp = buildPathGrp ∨ grp = appReleaseGrp ∨
      grp = generalGrp)
    (w : List Char) (h : Matches grp w) :
    (∃ c1, w = c1 ++ strL ".aab") ∨ (∃ c1, w = c1 ++ strL ".apk") := by
  rcases hg with hg | hg | hg | hg | hg <;> subst hg
  · obtain ⟨w1, w2, hw, _, h2⟩ := matches_cat_decomp h
    exact .inl ⟨w1, by rw [hw, matches_litStr _ _ h2]⟩
  · obtain ⟨w1, w2, hw, _, h2⟩ := matches_cat_decomp h
    exact .inr ⟨w1, by rw [hw, matches_litStr _ _ h2]⟩
  · obtain ⟨w1, w2, hw, _, h2⟩ := matches_cat_decomp h
    obtain ⟨w2a, w2b, hw2, _, h4⟩ := matches_cat_decomp h2
    rcases matches_extAlt _ h4 with he | he
    · exact .inl ⟨w1 ++ w2a, by rw [hw, hw2, he, List.append_assoc]⟩
    · exact .inr ⟨w1 ++ w2a, by rw [hw, hw2, he, List.append_assoc]⟩
  · obtain ⟨w1, w2, hw, _, h2⟩ := matches_cat_decomp h
    obtain ⟨w2a, w2b, hw2, _, h4⟩ := matches_cat_decomp h2
    rcases matches_extAlt _ h4 with he | he
    · exact .inl ⟨w1 ++ w2a, by simp [hw, hw2, he, List.append_assoc]⟩
    · exact .inr ⟨w1 ++ w2a, by simp [hw, hw2, he, List.append_assoc]⟩
  · obtain ⟨w1, w2, hw, _, h2⟩ := matches_cat_decomp h
    rcases matches_extAlt _ h2 with he | he
    · exact .inl ⟨w1, by rw [hw, he]⟩
    · exact .inr ⟨w1, by rw [hw, he]⟩

/-- A successful search with one of the five artifact groups implies the
scanned text contains an artifact extension. -/
theorem search_some_hasSub (pre grp : RE)
    (hg : grp = aabGrp ∨ grp = apkGrp ∨ grp = buildPathGrp ∨ grp = appReleaseGrp ∨
      grp = generalGrp)
    (s c : List Char) (h : searchAll pre grp s = some c) :
    hasSub (strL ".aab") s = true ∨ hasSub (strL ".apk") s = true := by
  obtain ⟨hm, l, r, hd⟩ := searchAll_decomp pre grp s c h
  rcases matches_grp_ext grp hg c hm with ⟨c1, hc⟩ | ⟨c1, hc⟩
  · left
    exact hasSub_of_decomp _ (l ++ c1) r s (by simp [hd, hc, List.append_assoc])
  · right
    exact hasSub_of_decomp _ (l ++ c1) r s (by simp [hd, hc, List.append_assoc])

/-! ## Claim theorems -/

/-- Claim C4: the Android artifact extractor applies its five rules in
the fixed declared order and returns the capture of the first rule that
matches; in particular, on output containing both a bare .aab token and
a marker-style Built path, the marker-style path is returned even though
the last-resort rule alone would have picked the bare token. -/
theorem claim_c4_extract_precedence :
    (∀ out c, searchBuiltAab out = some c → extract_file_path out = some c)
  ∧ (∀ out c, searchBuiltAab out = none → searchBuiltApk out = some c →
      extract_file_path out = some c)
  ∧ (∀ out c, searchBuiltAab out = none → searchBuiltApk out = none →
      searchBuildPath out = some c → extract_file_path out = some c)
  ∧ (∀ out c, searchBuiltAab out = none → searchBuiltApk out = none →
      searchBuildPath out = none → searchAppRelease out = some c →
      extract_file_path out = some c)
  ∧ (∀ out, searchBuiltAab out = none → searchBuiltApk out = none →
      searchBuildPath out = none → searchAppRelease out = none →
      extract_file_path out = searchGeneral out)
  ∧ extract_file_path demoOut = some (strL "build/out/app.aab")
  ∧ searchGeneral demoOut = some (strL "/tmp/other.aab") := by
  refine ⟨?_, ?_, ?_, ?_, ?_, ?_, ?_⟩
  · intro out c h1
    simp [extract_file_path, h1]
  · intro out c h1 h2
    simp [extract_file_path, h1, h2]
  · intro out c h1 h2 h3
    simp [extract_file_path, h1, h2, h3]
  · intro out c h1 h2 h3 h4
    simp [extract_file_path, h1, h2, h3, h4]
  · intro out h1 h2 h3 h4
    simp [extract_file_path, h1, h2, h3, h4]
  · decide
  · decide

/-- Witness for claim C4: the first cascade rule decides the result on a
concrete marker-style output. -/
theorem claim_c4_witness :
    extract_file_path demoOut = some (strL "build/out/app.aab") :=
  claim_c4_extract_precedence.1 demoOut (strL "build/out/app.aab") (by decide)

/-- Claim C5: when the output holds no substring ending in .aab or .apk,
the extractor returns none after exhausting all rules, and the Android
build operation then fails with the extraction error instead of
producing a path. -/
theorem claim_c5_no_extension_fails :
    ∀ out, hasSub (strL ".aab") out = false → hasSub (strL ".apk") out = false →
      extract_file_path out = none
    ∧ (∀ originalPath buildPath,
        androidBuild originalPath buildPath true out = ⟨.extractFailed, buildPath⟩) := by
  intro out h1 h2
  have hfalse : ∀ (pre grp : RE),
      grp = aabGrp ∨ grp = apkGrp ∨ grp = buildPathGrp ∨ grp = appReleaseGrp ∨
        grp = generalGrp →
      searchAll pre grp out = none := by
    intro pre grp hg
    cases hs : searchAll pre grp out with
    | none => rfl
    | some c =>
      rcases search_some_hasSub pre grp hg out c hs with hx | hx
      · rw [h1] at hx
        cases hx
      · rw [h2] at hx
        cases hx
  have hA : searchBuiltAab out = none := hfalse builtPre aabGrp (.inl rfl)
  have hB : searchBuiltApk out = none := hfalse builtPre apkGrp (.inr (.inl rfl))
  have hC : searchBuildPath out = none := hfalse .eps buildPathGrp (.inr (.inr (.inl rfl)))
  have hD : searchAppRelease out = none :=
    hfalse .eps appReleaseGrp (.inr (.inr (.inr (.inl rfl))))
  have hE : searchGeneral out = none :=
    hfalse .eps generalGrp (.inr (.inr (.inr (.inr rfl))))
  have hnone : extract_file_path out = none := by
    simp [extract_file_path, hA, hB, hC, hD, hE]
  refine ⟨hnone, ?_⟩
  intro originalPath buildPath
  simp [androidBuild, hnone]

/-- Witness for claim C5 on a concrete extension-free output. -/
theorem claim_c5_witness :
    extract_file_path (strL "no artifacts produced") = none :=
  (claim_c5_no_extension_fails (strL "no artifacts produced") (by decide) (by decide)).1

/-- Claim C10: when extraction fails after the working directory was
changed to the build path, the operation raises with the working
directory left at the build path; the restoring directory change happens
only on the success path. -/
theorem claim_c10_cwd_frame :
    ∀ (originalPath buildPath outF outS p : List Char),
      extract_file_path outF = none → extract_file_path outS = some p →
      androidBuild originalPath buildPath true outF = ⟨.extractFailed, buildPath⟩
    ∧ androidBuild originalPath buildPath true outS =
        ⟨.built (originalPath ++ strL "/" ++ buildPath ++ strL "/" ++ p), originalPath⟩ := by
  intro originalPath buildPath outF outS p hF hS
  constructor
  · simp [androidBuild, hF]
  · simp [androidBuild, hS]

/-- Witness for claim C10 at concrete paths and outputs. -/
theorem claim_c10_witness :
    androidBuild (strL "/home/ci") (strL "proj") true (strL "nothing here") =
      ⟨.extractFailed, strL "proj"⟩ :=
  (claim_c10_cwd_frame (strL "/home/ci") (strL "proj") (strL "nothing here")
    (strL "Built a.aab") (strL "a.aab") (by decide) (by decide)).1

theorem runLoop_ok (o : Nat → AttemptOutcome) (m a r : Nat) (h : o a = .ok) :
    runLoop o m a (r + 1) =
      (true, a + 1, if a = 0 then .successFirst else .successAfter (a + 1)) := by
  rw [runLoop, h]

theorem runLoop_step_fail (o : Nat → AttemptOutcome) (m a r : Nat)
    (h : o a ≠ .ok) (hlt : a < m - 1) :
    runLoop o m a (r + 1) = runLoop o m (a + 1) r := by
  rw [runLoop]
  cases ho : o a with
  | ok => exact absurd ho h
  | nonzeroExit => simp [hlt]
  | timedOut => simp [hlt]
  | raisedExc => simp [hlt]

theorem runLoop_final_fail (o : Nat → AttemptOutcome) (m a r : Nat)
    (h : o a ≠ .ok) (hge : ¬ a < m - 1) :
    runLoop o m a (r + 1) = (false, a + 1, .exhausted m) := by
  rw [runLoop]
  cases ho : o a with
  | ok => exact absurd ho h
  | nonzeroExit => simp [hge]
  | timedOut => simp [hge]
  | raisedExc => simp [hge]

theorem runLoop_used_le (o : Nat → AttemptOutcome) (m : Nat) :
    ∀ (r a : Nat), (runLoop o m a r).2.1 ≤ a + r := by
  intro r
  induction r with
  | zero =>
    intro a
    simp [runLoop]
  | succ r ih =>
    intro a
    by_cases ho : o a = .ok
    · rw [runLoop_ok o m a r ho]
      show a + 1 ≤ a + (r + 1)
      omega
    · by_cases hlt : a < m - 1
      · rw [runLoop_step_fail o m a r ho hlt]
        have := ih (a + 1)
        omega
      · rw [runLoop_final_fail o m a r ho hlt]
        show a + 1 ≤ a + (r + 1)
        omega

/-- Claim C6: with a budget of 3 attempts the bootstrap wrapper invokes
the operation at most 3 times; a success at attempt k (0-based, after k
failures) returns immediately after k+1 invocations, noting the attempt
count exactly when it is greater than one; failing all 3 attempts
returns failure after exactly 3 invocations with a message noting the
exhausted attempts; and a per-attempt timeout drives the loop exactly
like a nonzero exit. -/
theorem claim_c6_retry_budget :
    (∀ (e : MelosEnv) (k : Nat), has_melos_config e = true → e.melosInstalled = true →
      k < 3 → (∀ i, i < k → e.outcome i ≠ .ok) → e.outcome k = .ok →
      run_melos_bootstrap e 3 =
        (true, k + 1, if k = 0 then .successFirst else .successAfter (k + 1)))
  ∧ (∀ (e : MelosEnv), has_melos_config e = true → e.melosInstalled = true →
      (∀ i, i < 3 → e.outcome i ≠ .ok) →
      run_melos_bootstrap e 3 = (false, 3, .exhausted 3))
  ∧ (∀ (e : MelosEnv), (run_melos_bootstrap e 3).2.1 ≤ 3)
  ∧ (∀ (o o2 : Nat → AttemptOutcome) (m : Nat), (∀ i, (o i = .ok) ↔ (o2 i = .ok)) →
      ∀ (r a : Nat), runLoop o m a r = runLoop o2 m a r) := by
  refine ⟨?_, ?_, ?_, ?_⟩
  · intro e k hc hi hk hfail hok
    rw [run_melos_bootstrap, hc, hi]
    simp only [Bool.true_eq_false, if_false]
    interval_cases k
    · rw [runLoop_ok e.outcome 3 0 2 hok]
    · rw [runLoop_step_fail e.outcome 3 0 2 (hfail 0 (by omega)) (by omega),
        runLoop_ok e.outcome 3 1 1 hok]
    · rw [runLoop_step_fail e.outcome 3 0 2 (hfail 0 (by omega)) (by omega),
        runLoop_step_fail e.outcome 3 1 1 (hfail 1 (by omega)) (by omega),
        runLoop_ok e.outcome 3 2 0 hok]
  · intro e hc hi hfail
    rw [run_melos_bootstrap, hc, hi]
    simp only [Bool.true_eq_false, if_false]
    rw [runLoop_step_fail e.outcome 3 0 2 (hfail 0 (by omega)) (by omega),
      runLoop_step_fail e.outcome 3 1 1 (hfail 1 (by omega)) (by omega),
      runLoop_final_fail e.outcome 3 2 0 (hfail 2 (by omega)) (by omega)]
  · intro e
    rw [run_melos_bootstrap]
    by_cases hc : has_melos_config e = false
    · simp [hc]
    · rw [if_neg hc]
      by_cases hi : e.melosInstalled = false
      · simp [hi]
      · rw [if_neg hi]
        exact runLoop_used_le e.outcome 3 3 0
  · intro o o2 m hiff r
    induction r with
    | zero =>
      intro a
      rfl
    | succ r ih =>
      intro a
      by_cases ho : o a = .ok
      · rw [runLoop_ok o m a r ho, runLoop_ok o2 m a r ((hiff a).mp ho)]
      · have ho2 : o2 a ≠ .ok := fun h => ho ((hiff a).mpr h)
        by_cases hlt : a < m - 1
        · rw [runLoop_step_fail o m a r ho hlt, runLoop_step_fail o2 m a r ho2 hlt]
          exact ih (a + 1)
        · rw [runLoop_final_fail o m a r ho hlt, runLoop_final_fail o2 m a r ho2 hlt]

/-- Witness for claim C6: failures on attempts 1 and 2, success on
attempt 3, reported as success after 3 invocations. -/
theorem claim_c6_witness :
    run_melos_bootstrap
      ⟨true, false, true, fun i => if i = 2 then .ok else .nonzeroExit⟩ 3 =
      (true, 3, .successAfter 3) := by
  have h := claim_c6_retry_budget.1
    ⟨true, false, true, fun i => if i = 2 then .ok else .nonzeroExit⟩ 2
    (by decide) (by decide) (by omega)
    (by intro i hi; interval_cases i <;> simp)
    (by simp)
  simpa using h

/-- Claim C7: a failed pre-flight check (no melos configuration file, or
the melos binary absent) returns failure immediately, with zero
invocations of the bootstrap operation. -/
theorem claim_c7_preflight :
    ∀ (e e2 : MelosEnv) (maxRetries : Nat),
      e.melosYamlExists = false → e.melosYmlExists = false →
      has_melos_config e2 = true → e2.melosInstalled = false →
      run_melos_bootstrap e maxRetries = (false, 0, .noConfig)
    ∧ run_melos_bootstrap e2 maxRetries = (false, 0, .melosNotFound) := by
  intro e e2 maxRetries h1 h2 h3 h4
  constructor
  · simp [run_melos_bootstrap, has_melos_config, h1, h2]
  · simp [run_melos_bootstrap, h3, h4]

/-- Witness for claim C7 at concrete environments. -/
theorem claim_c7_witness :
    run_melos_bootstrap ⟨false, false, true, fun _ => .ok⟩ 3 = (false, 0, .noConfig) :=
  (claim_c7_preflight ⟨false, false, true, fun _ => .ok⟩
    ⟨true, true, false, fun _ => .ok⟩ 3 rfl rfl rfl rfl).1

theorem firstMatchIdx_isSome (content : List Char) :
    ∀ (pats : List RE),
      (firstMatchIdx pats content).isSome = pats.any (fun re => hasMatch re content) := by
  intro pats
  induction pats with
  | nil => rfl
  | cons p ps ih =>
    rw [firstMatchIdx]
    cases hp : hasMatch p content with
    | true => simp [hp]
    | false => simp [hp, ← ih]

theorem filter_head_eq_find (p : MainInfo → Bool) :
    ∀ (l : List MainInfo), (l.filter p).head? = l.find? p := by
  intro l
  induction l with
  | nil => rfl
  | cons a t ih =>
    cases hp : p a with
    | true => simp [List.filter, List.find?, hp]
    | false => simp [List.filter, List.find?, hp, ih]

/-- Claim C9: every traversed file matching an entry pattern is recorded
as a candidate regardless of the launch-call test, annotated with
whether the launch call is present; the single best pick is the first
candidate in traversal order whose launch-call flag is set, with no
other tie-break, so a candidate without the launch call is never
chosen. -/
theorem claim_c9_entry_point_choice :
    (∀ (files : List (List Char × List Char)) (nm ct : List Char) (i : MainInfo),
      (nm, ct) ∈ files → search_main_in_file nm ct = some i →
      i ∈ find_main_functions files)
  ∧ (∀ (nm ct : List Char),
      (search_main_in_file nm ct).isSome = mainPatterns.any (fun re => hasMatch re ct))
  ∧ (∀ (nm ct : List Char) (i : MainInfo), search_main_in_file nm ct = some i →
      i.hasRunApp = runAppPatterns.any (fun re => hasMatch re ct))
  ∧ (∀ (files : List (List Char × List Char)),
      bestEntryPoint files = (find_main_functions files).find? (fun i => i.hasRunApp))
  ∧ (∀ (files : List (List Char × List Char)) (i : MainInfo),
      bestEntryPoint files = some i → i.hasRunApp = true) := by
  have hfind : ∀ (files : List (List Char × List Char)),
      bestEntryPoint files = (find_main_functions files).find? (fun i => i.hasRunApp) := by
    intro files
    rw [bestEntryPoint, get_flutter_entry_points,
      filter_head_eq_find (fun i => i.hasRunApp) (find_main_functions files)]
  refine ⟨?_, ?_, ?_, hfind, ?_⟩
  · intro files nm ct i hmem hs
    exact List.mem_filterMap.mpr ⟨(nm, ct), hmem, hs⟩
  · intro nm ct
    rw [search_main_in_file, ← firstMatchIdx_isSome ct mainPatterns]
    cases firstMatchIdx mainPatterns ct <;> rfl
  · intro nm ct i hs
    rw [search_main_in_file] at hs
    cases hf : firstMatchIdx mainPatterns ct with
    | none => rw [hf] at hs; cases hs
    | some j =>
      rw [hf] at hs
      cases hs
      rfl
  · intro files i hbest
    rw [hfind files] at hbest
    exact List.find?_some hbest

/-- Witness for claim C9: on two traversed files where only the second
holds the launch call, the best pick is the second candidate. -/
theorem claim_c9_witness :
    bestEntryPoint demoFiles = some ⟨strL "pkg/lib/main.dart", 0, true⟩ ∧
    (⟨strL "pkg/lib/main.dart", 0, true⟩ : MainInfo).hasRunApp = true := by
  refine ⟨by decide, ?_⟩
  exact claim_c9_entry_point_choice.2.2.2.2 demoFiles ⟨strL "pkg/lib/main.dart", 0, true⟩
    (by decide)

/-- Claim C1 counterexample: with a trustworthy repository on branch
main and every command succeeding, a Preserve checkout of branch dev
performs a checkout but no pull at all, refuting that a pull happens
regardless of whether a checkout occurred. -/
theorem claim_c1_counterexample :
    (checkoutWithStrategy wAll (strL "dev") .branch .preserve sOnMain).1 = true
  ∧ GitOp.checkoutOp (strL "dev") ∈
      (checkoutWithStrategy wAll (strL "dev") .branch .preserve sOnMain).2.2
  ∧ GitOp.pullOp ∉
      (checkoutWithStrategy wAll (strL "dev") .branch .preserve sOnMain).2.2 := by
  decide

/-- Claim C1 as amended: for a branch target under Preserve on a
trustworthy repository whose reset, clean, fetch and show-current
commands succeed, the pull runs exactly when no checkout was needed
(the working copy already reports the target branch), and in that case a
pull failure does not flip the overall outcome, which stays success;
when a checkout was needed and succeeds no pull is issued at all. -/
theorem claim_c1_pull_only_without_checkout :
    ∀ (w : GitWorld) (t : List Char) (s : RepoState),
      s.pathExists = true → s.hasGitDir = true →
      w.resetOk = true → w.cleanOk = true → w.fetchOk = true → w.showCurrentOk = true →
      ((s.headBranch = some t →
          (checkoutWithStrategy w t .branch .preserve s).1 = true
        ∧ GitOp.pullOp ∈ (checkoutWithStrategy w t .branch .preserve s).2.2
        ∧ GitOp.checkoutOp t ∉ (checkoutWithStrategy w t .branch .preserve s).2.2)
      ∧ (s.headBranch ≠ some t → w.checkoutOk t = true →
          (checkoutWithStrategy w t .branch .preserve s).1 = true
        ∧ GitOp.pullOp ∉ (checkoutWithStrategy w t .branch .preserve s).2.2
        ∧ GitOp.checkoutOp t ∈ (checkoutWithStrategy w t .branch .preserve s).2.2)) := by
  intro w t s hpe hgd hreset hclean hfetch hshow
  have hrepo : isGitRepo s = true := by rw [isGitRepo, hpe, hgd]; rfl
  have hprep : prepareForPreserve w .branch s =
      (true, s, [.resetOp, .cleanOp, .fetchOp]) := by
    rw [prepareForPreserve]
    simp [hpe, hrepo, resetHard, cleanUntracked, gitFetch, andThen, hreset, hclean, hfetch]
  constructor
  · intro hhb
    have hneeds : needsCheckout w .branch t s = false := by
      simp [needsCheckout, hshow, hhb]
    simp [checkoutWithStrategy, preserveCheckout, hprep, andThen, hneeds,
      handleBranchUpdate, pullRepository, hrepo]
  · intro hhb hck
    have hneeds : needsCheckout w .branch t s = true := by
      simp [needsCheckout, hhb]
    simp [checkoutWithStrategy, preserveCheckout, hprep, andThen, hneeds,
      runCheckout, checkoutRef, hck, handleBranchUpdate]

/-- Witness for claim C1 as amended: already on the target branch with a
failing pull, the outcome is still success and a pull was issued. -/
theorem claim_c1_witness :
    (checkoutWithStrategy wNoPull (strL "main") .branch .preserve sOnMain).1 = true ∧
    GitOp.pullOp ∈ (checkoutWithStrategy wNoPull (strL "main") .branch .preserve sOnMain).2.2 := by
  have h := (claim_c1_pull_only_without_checkout wNoPull (strL "main") sOnMain
    rfl rfl rfl rfl rfl rfl).1 (by decide)
  exact ⟨h.1, h.2.1⟩

/-- Claim C2 counterexample: with the local path absent and a world in
which clone and checkout would succeed, a Preserve commit checkout
returns failure immediately and issues no command at all, refuting the
claim for commit targets. -/
theorem claim_c2_counterexample :
    wAll.cloneOk = true
  ∧ wAll.checkoutOk (strL "abc123") = true
  ∧ checkout_commit wAll (strL "abc123") .preserve sAbsent = (false, sAbsent, []) := by
  decide

/-- Claim C2 as amended: with the local path absent, the Preserve
checkout delegates to clone only for branch targets, where it clones and
then brings the copy onto the branch, succeeding when the commands
succeed; for commit and tag targets the wrapper returns failure
immediately because a missing path is reported as not a repository. -/
theorem claim_c2_absent_path :
    ∀ (w : GitWorld) (t : List Char) (s : RepoState),
      s.pathExists = false → w.cloneOk = true → w.showCurrentOk = true →
      w.checkoutOk t = true →
      ((checkout_branch w t .preserve s).1 = true
        ∧ GitOp.cloneOp ∈ (checkout_branch w t .preserve s).2.2)
    ∧ checkout_commit w t .preserve s = (false, s, [])
    ∧ checkout_tag w t .preserve s = (false, s, []) := by
  intro w t s hpe hclone hshow hck
  have hnorepo : isGitRepo s = false := by rw [isGitRepo, hpe]; rfl
  refine ⟨?_, ?_, ?_⟩
  · have hprep : prepareForPreserve w .branch s =
        (true, ⟨true, true, some w.defaultBranch, some w.defaultBranch⟩, [.cloneOp]) := by
      rw [prepareForPreserve]
      simp [hpe, cloneRepository, hclone]
    by_cases hd : w.defaultBranch = t
    · have hneeds :
          needsCheckout w .branch t ⟨true, true, some w.defaultBranch, some w.defaultBranch⟩ =
            false := by
        simp [needsCheckout, hshow, hd]
      simp [checkout_branch, checkoutWithStrategy, preserveCheckout, hprep, andThen,
        hneeds, handleBranchUpdate, pullRepository, isGitRepo]
    · have hneeds :
          needsCheckout w .branch t ⟨true, true, some w.defaultBranch, some w.defaultBranch⟩ =
            true := by
        simp [needsCheckout, hd]
      simp [checkout_branch, checkoutWithStrategy, preserveCheckout, hprep, andThen,
        hneeds, runCheckout, checkoutRef, hck, handleBranchUpdate]
  · simp [checkout_commit, hnorepo]
  · simp [checkout_tag, hnorepo]

/-- Witness for claim C2 as amended: the branch path succeeds via clone
from an absent local path. -/
theorem claim_c2_witness :
    (checkout_branch wAll (strL "dev") .preserve sAbsent).1 = true ∧
    GitOp.cloneOp ∈ (checkout_branch wAll (strL "dev") .preserve sAbsent).2.2 :=
  (claim_c2_absent_path wAll (strL "dev") sAbsent rfl rfl rfl rfl).1

/-- Claim C3: a Preserve commit or tag checkout on an existing local
path that is not a version-control repository fails immediately, issuing
no command at all: nothing is removed, nothing is cloned, and no Fresh
fallback runs. -/
theorem claim_c3_fail_fast :
    ∀ (w : GitWorld) (t : List Char) (s : RepoState),
      s.pathExists = true → s.hasGitDir = false →
      checkout_commit w t .preserve s = (false, s, [])
    ∧ checkout_tag w t .preserve s = (false, s, []) := by
  intro w t s hpe hgd
  have hnorepo : isGitRepo s = false := by rw [isGitRepo, hpe, hgd]; rfl
  constructor
  · simp [checkout_commit, hnorepo]
  · simp [checkout_tag, hnorepo]

/-- Witness for claim C3 at a concrete non-repository directory. -/
theorem claim_c3_witness :
    checkout_commit wAll (strL "deadbeef") .preserve sNotRepo = (false, sNotRepo, []) :=
  (claim_c3_fail_fast wAll (strL "deadbeef") sNotRepo rfl rfl).1

/-- Claim C8: when the remove, clone and checkout commands succeed, the
Fresh checkout succeeds, leaves the working copy on the resolved target
reference, is idempotent (a second run from the resulting state succeeds
and produces the same state), yields a final state independent of the
initial local state, and its removal step succeeds without issuing any
command when the path is already absent. -/
theorem claim_c8_fresh_idempotent :
    ∀ (w : GitWorld) (t : List Char) (tt : TargetType) (s s2 : RepoState),
      w.removeOk = true → w.cloneOk = true → w.checkoutOk (checkoutRef tt t) = true →
      ((checkoutWithStrategy w t tt .fresh s).1 = true)
    ∧ ((checkoutWithStrategy w t tt .fresh s).2.1.checkedOutRef = some (checkoutRef tt t))
    ∧ ((checkoutWithStrategy w t tt .fresh
          ((checkoutWithStrategy w t tt .fresh s).2.1)).1 = true)
    ∧ ((checkoutWithStrategy w t tt .fresh
          ((checkoutWithStrategy w t tt .fresh s).2.1)).2.1
        = (checkoutWithStrategy w t tt .fresh s).2.1)
    ∧ ((checkoutWithStrategy w t tt .fresh s).2.1
        = (checkoutWithStrategy w t tt .fresh s2).2.1)
    ∧ (∀ s3 : RepoState, s3.pathExists = false → removeDirectory w s3 = (true, s3, [])) := by
  intro w t tt s s2 hrm hclone hck
  have ksucc : ∀ s3 : RepoState, (checkoutWithStrategy w t tt .fresh s3).1 = true := by
    intro s3
    cases hp : s3.pathExists <;>
      simp [checkoutWithStrategy, freshCheckout, removeDirectory, cloneRepository,
        runCheckout, andThen, hp, hrm, hclone, hck]
  have kstate : ∀ s3 : RepoState, (checkoutWithStrategy w t tt .fresh s3).2.1 =
      ⟨true, true, (match tt with | .branch => some t | _ => none),
        some (checkoutRef tt t)⟩ := by
    intro s3
    cases tt <;> cases hp : s3.pathExists <;>
      simp [checkoutWithStrategy, freshCheckout, removeDirectory, cloneRepository,
        runCheckout, andThen, hp, hrm, hclone] <;>
      simp [checkoutRef] at hck ⊢ <;> simp [hck]
  refine ⟨ksucc s, ?_, ksucc _, ?_, ?_, ?_⟩
  · rw [kstate s]
  · rw [kstate ((checkoutWithStrategy w t tt .fresh s).2.1), kstate s]
  · rw [kstate s, kstate s2]
  · intro s3 h3
    simp [removeDirectory, h3]

/-- Witness for claim C8: a fresh tag checkout from an absent path ends
on the tags namespace reference. -/
theorem claim_c8_witness :
    (checkoutWithStrategy wAll (strL "v2") .tag .fresh sAbsent).2.1.checkedOutRef =
      some (strL "tags/v2") :=
  (claim_c8_fresh_idempotent wAll (strL "v2") .tag sAbsent sOnMain rfl rfl rfl).2.1

end Octopus
